import Mathlib

/-!
Verification of the segment resolution-and-skip engine of iSponsorBlockTV.

The development shallowly embeds the parts of the program that the spec's
testable properties talk about:

* `ApiHelpers.processSegments` / `ApiHelpers.getSegments` — the segment
  resolver of `src/iSponsorBlockTV/api_helpers.py` (merge walk keyed by
  `constants.min_gap_to_merge`, whitelist fast path, hashed-prefix fetch and
  failure handling).  The constant `min_gap_to_merge` is not defined in the
  tree's `constants.py`, so the merge threshold is a parameter `gap` here.
* `Core.processSegments` — the resolver of
  `src/src/iSponsorBlockTV/core/sponsorblock.py` (sort/extend passes, blanket
  exception recovery returning the partially built result).
* `timeToSegment` — the skip scheduler of
  `src/src/iSponsorBlockTV/core/devices.py` (`DeviceListener.time_to_segment`).
* `devRun` — the per-device skip-task supersession discipline of
  `DeviceListener.__call__` (cancel the previous playback task, arm a new one).
* `watchdogRun` — the subscription watchdog of
  `src/src/iSponsorBlockTV/core/youtube.py` (`_watchdog` / `_reset_watchdog`).
* `cachedCall` / `ttlSetItem` — the conditional-TTL cache wrapper of
  `src/src/iSponsorBlockTV/utils/cache.py` (`AsyncConditionalTTL`), with the
  underlying store's lookup semantics (entry with no expiry never expires)
  taken from the spec's CacheEntry description, the library itself being an
  external dependency.

Python floats (playback times, segment bounds) are modelled as rationals;
fallible dictionary/index accesses are modelled with `Option`/`Except`;
the asyncio interleavings relevant to the temporal claims are modelled as
explicit operation sequences driving small step functions.
-/

namespace ISponsorBlockTV

/-- A raw segment record as delivered by the segment service: a
`[start, end]` pair, an opaque identifier (`UUID`) and an optional
`locked` flag (`segment.get("locked")`). -/
structure RawSeg where
  start : ℚ
  stop : ℚ
  uuid : String
  locked : Option Int
  deriving DecidableEq, Repr

/-- A merged output segment (`{"start": .., "end": .., "UUID": [..]}`). -/
structure MSeg where
  start : ℚ
  stop : ℚ
  ids : List String
  deriving DecidableEq, Repr

/-- A raw response record with possibly missing fields: `segment` is absent
(or not a well-shaped pair) in malformed records, `uuid` models the `UUID`
key, `locked` the optional `locked` key. -/
structure RawRecord where
  segment : Option (List ℚ)
  uuid : Option String
  locked : Option Int
  deriving DecidableEq, Repr

/-- Python exception kinds raised by the resolvers on malformed records. -/
inductive PyErr where
  | typeError
  | keyError
  | indexError
  deriving DecidableEq, Repr

namespace ApiHelpers

/-- The per-record lock test folded into `ignore_ttl`:
`segment.get("locked") == 1`. -/
def lockedFlag (s : RawSeg) : Bool := s.locked == some 1

/-- `sorted(response["segments"], key=lambda x: x["segment"][0])` —
Python's stable sort by start time. -/
def sortByStart (raws : List RawSeg) : List RawSeg :=
  List.insertionSort (fun a b => a.start ≤ b.start) raws

/-- One iteration of the merge walk of `ApiHelper.process_segments`
(`api_helpers.py` lines 165-181).  The accumulator holds the merged
segments in reverse order, so the list head is `merged_segments[-1]`.
The first branch (`segment["segment"][0] - merged_segments[-1]["segment"][1]
< constants.min_gap_to_merge`) overwrites the previous end with the new
segment's end; the second branch (overlap) takes the max of the ends; the
final branch opens a new merged segment. -/
def mergeStep (gap : ℚ) (acc : List MSeg) (s : RawSeg) : List MSeg :=
  match acc with
  | [] => [⟨s.start, s.stop, [s.uuid]⟩]
  | m :: rest =>
    if s.start - m.stop < gap then
      ⟨m.start, s.stop, m.ids ++ [s.uuid]⟩ :: rest
    else if s.start ≤ m.stop then
      ⟨m.start, max m.stop s.stop, m.ids ++ [s.uuid]⟩ :: rest
    else
      ⟨s.start, s.stop, [s.uuid]⟩ :: m :: rest

/-- `ApiHelper.process_segments` of `api_helpers.py` on records whose fields
are all present: sort by start, walk the sorted list maintaining the merged
list and the conjunction `ignore_ttl = ignore_ttl and segment.get("locked")
== 1`, and return the merged segments together with the `ignore_ttl` flag. -/
def processSegments (gap : ℚ) (raws : List RawSeg) : List MSeg × Bool :=
  let sorted := sortByStart raws
  let res := sorted.foldl
    (fun st s => (mergeStep gap st.1 s, st.2 && lockedFlag s)) ([], true)
  (res.1.reverse, res.2)

/-- A record of the hashed-prefix lookup response: a `videoID` and, when the
key is present, the list of raw segments. -/
structure SBRecord where
  videoID : String
  segments : Option (List RawSeg)

/-- The raw segments that contribute to the resolution of `vid`: those of the
first response record whose `videoID` matches, if any. -/
def contributingSegs (recs : List SBRecord) (vid : String) : List RawSeg :=
  match recs.find? (fun r => r.videoID == vid) with
  | none => []
  | some r => r.segments.getD []

/-- `ApiHelper.get_segments` of `api_helpers.py`, abstracting the network:
`whitelisted` is the result of `is_whitelisted`, `fetchOK` is
`response.status == 200`, and `recs` is the decoded response list.  When no
record matches the video id, `response_json` remains the response list and
`"segments" not in response` holds, so the empty, cache-forever result is
returned; likewise for a matching record without a `segments` key. -/
def getSegments (gap : ℚ) (whitelisted fetchOK : Bool) (recs : List SBRecord)
    (vid : String) : List MSeg × Bool :=
  if whitelisted then ([], true)
  else if !fetchOK then ([], true)
  else
    match recs.find? (fun r => r.videoID == vid) with
    | none => ([], true)
    | some r =>
      match r.segments with
      | none => ([], true)
      | some segs => processSegments gap segs

/-- Ordering relation between two consecutive merged segments: both are
well-formed intervals, they are disjoint, and the gap between them is at
least the merge threshold. -/
def SegChain (gap : ℚ) (a b : MSeg) : Prop :=
  a.start ≤ a.stop ∧ b.start ≤ b.stop ∧ a.stop < b.start ∧ gap ≤ b.start - a.stop

instance (gap : ℚ) : IsTrans MSeg (SegChain gap) := by
  refine ⟨fun a b c hab hbc => ?_⟩
  obtain ⟨ha, hb, hab1, hab2⟩ := hab
  obtain ⟨_, hc, hbc1, hbc2⟩ := hbc
  refine ⟨ha, hc, ?_, ?_⟩
  · exact lt_of_le_of_lt (le_trans (le_of_lt hab1) hb) hbc1
  · have h1 : a.stop ≤ b.stop := le_trans (le_of_lt hab1) hb
    have := sub_le_sub_left h1 c.start
    linarith

instance : IsTotal RawSeg (fun a b => a.start ≤ b.start) :=
  ⟨fun a b => le_total a.start b.start⟩

instance : IsTrans RawSeg (fun a b => a.start ≤ b.start) :=
  ⟨fun _ _ _ h h2 => le_trans h h2⟩

/-- The walk of `api_helpers.process_segments` over possibly-incomplete
records, propagating exceptions.  A missing `UUID` raises `KeyError`
(`segment["UUID"] = [segment["UUID"]]`); a segment pair with fewer than two
entries raises `IndexError`.  In the source the second entry is read at the
first merge comparison or when the output list is built; every record's
second entry is eventually read, so it is read eagerly here — this only
changes which exception aborts first when several records are malformed. -/
def walkE (gap : ℚ) : List RawRecord → List MSeg → Bool → Except PyErr (List MSeg × Bool)
  | [], acc, ttl => Except.ok (acc.reverse, ttl)
  | r :: rest, acc, ttl =>
    let ttlNext := ttl && (r.locked == some 1)
    match r.uuid with
    | none => Except.error PyErr.keyError
    | some u =>
      match r.segment.getD [] with
      | [] => Except.error PyErr.indexError
      | [_] => Except.error PyErr.indexError
      | s0 :: s1 :: _ =>
        match acc with
        | [] => walkE gap rest [⟨s0, s1, [u]⟩] ttlNext
        | m :: t =>
          if s0 - m.stop < gap then
            walkE gap rest (⟨m.start, s1, m.ids ++ [u]⟩ :: t) ttlNext
          else if s0 ≤ m.stop then
            walkE gap rest (⟨m.start, max m.stop s1, m.ids ++ [u]⟩ :: t) ttlNext
          else
            walkE gap rest (⟨s0, s1, [u]⟩ :: m :: t) ttlNext

/-- `api_helpers.process_segments` with its exception behaviour.  The
validation loop (lines 156-158) raises `TypeError` when any record is not a
dict, lacks the `segment` key or its `segment` is not a list — collapsed
here into `segment = none`; then the sort key `x["segment"][0]` raises
`IndexError` on an empty pair; then the merge walk runs. -/
def processSegmentsE (gap : ℚ) (recs : List RawRecord) :
    Except PyErr (List MSeg × Bool) :=
  if recs.any (fun r => r.segment.isNone) then Except.error PyErr.typeError
  else if recs.any (fun r => (r.segment.getD []).isEmpty) then
    Except.error PyErr.indexError
  else
    walkE gap
      (List.insertionSort
        (fun a b : RawRecord =>
          (a.segment.getD []).headD 0 ≤ (b.segment.getD []).headD 0) recs)
      [] true

end ApiHelpers

/-- A stored cache entry: the computed value and its expiry time, `none`
meaning the entry never expires (spec: `CacheEntry<V> = (value, expires_at |
none)`; the underlying LRU/TTL store is the external `cache` library). -/
structure CacheEntry (V : Type) where
  value : V
  expiresAt : Option ℚ
  deriving DecidableEq, Repr

/-- Cache contents keyed by video id (LRU capacity is irrelevant to the
claims and not modelled). -/
def Cache (V : Type) : Type := List (String × CacheEntry V)

instance (V : Type) [DecidableEq V] : DecidableEq (Cache V) := by
  unfold Cache
  infer_instance

/-- Lookup respecting expiry: a present entry is returned while unexpired;
an entry with `expiresAt = none` is valid at every time. -/
def cacheLookup {V : Type} (now : ℚ) (c : Cache V) (k : String) : Option V :=
  match c.find? (fun p => p.1 == k) with
  | none => none
  | some p =>
    match p.2.expiresAt with
    | none => some p.2.value
    | some t => if now < t then some p.2.value else none

/-- `AsyncConditionalTTL._TTL.__setitem__`: the stored expiry is
`now + time_to_live` when a TTL is configured and the computed value did not
ask to be cached forever, and absent (`None`) otherwise. -/
def ttlSetItem {V : Type} (now : ℚ) (ttl : Option ℚ) (c : Cache V) (k : String)
    (v : V) (ignoreTtl : Bool) : Cache V :=
  (k, ⟨v, if ttl.isSome && !ignoreTtl then some (now + ttl.getD 0) else none⟩)
    :: c.filter (fun p => !(p.1 == k))

/-- `AsyncConditionalTTL.__call__`'s wrapper body, one sequential call: on a
hit return the cached value; on a miss run the computation, store
`(value, ignore_ttl)` and return the value. -/
def cachedCall {V : Type} (now : ℚ) (ttl : Option ℚ) (c : Cache V) (k : String)
    (compute : V × Bool) : V × Cache V :=
  match cacheLookup now c k with
  | some v => (v, c)
  | none => (compute.1, ttlSetItem now ttl c k compute.1 compute.2)

/-- `AsyncConditionalTTL.__call__` when the computation can raise: an
exception propagates out of `self.ttl[key] = await func(...)` before the
store runs, so the cache is left untouched. -/
def cachedCallE {V : Type} (now : ℚ) (ttl : Option ℚ) (c : Cache V) (k : String)
    (compute : Except PyErr (V × Bool)) : Except PyErr V × Cache V :=
  match cacheLookup now c k with
  | some v => (Except.ok v, c)
  | none =>
    match compute with
    | Except.error e => (Except.error e, c)
    | Except.ok r => (Except.ok r.1, ttlSetItem now ttl c k r.1 r.2)

/-- The selection loop of `DeviceListener.time_to_segment`
(`core/devices.py` lines 201-211): scan the segments in list order and pick
the first one that either contains the position with `position < 2`
(effective start = current position) or starts after the position
(effective start = segment start). -/
def findNext : List MSeg → ℚ → Option (ℚ × MSeg)
  | [], _ => none
  | seg :: rest, position =>
    if position < 2 ∧ seg.start ≤ position ∧ position < seg.stop then
      some (position, seg)
    else if position < seg.start then
      some (seg.start, seg)
    else
      findNext rest position

/-- `DeviceListener.time_to_segment` (`core/devices.py` lines 198-216):
after the selection loop, the guard `if start_next_segment:` treats the
numeric value 0 like `None`, so a zero effective start schedules nothing;
otherwise the scheduled skip has delay
`start_next_segment - position - elapsed - offset`, seeks to the segment
end and reports the segment's identifiers.  `elapsed` stands for
`time.time() - time_start` and `offset` for `self.offset`. -/
def timeToSegment (segments : List MSeg) (position elapsed offset : ℚ) :
    Option (ℚ × ℚ × List String) :=
  match findNext segments position with
  | none => none
  | some (s, seg) =>
    if s = 0 then none
    else some (s - position - elapsed - offset, seg.stop, seg.ids)

/-- Status of one `process_playstatus` task created by
`DeviceListener.__call__`. -/
inductive SkipStatus where
  | pending
  | cancelled
  | fired
  | finished
  deriving DecidableEq, Repr

/-- One playback-processing task: the snapshot it was armed for and its
status. -/
structure SkipTask where
  plan : ℕ
  status : SkipStatus
  deriving DecidableEq, Repr

/-- Operations of the per-device skip discipline: `ev p` is a playback
state-change event arriving (`__call__`: cancel `self.task`, create a fresh
task for snapshot `p`); `fire i` is task `i` (0 = most recently created)
reaching its seek; `finish i` is task `i` completing without seeking (paused
state, no segments). -/
inductive DevOp where
  | ev (p : ℕ)
  | fire (i : ℕ)
  | finish (i : ℕ)

/-- `self.task.cancel()`: cancelling the most recent task is a no-op unless
it is still pending. -/
def cancelTask (t : SkipTask) : SkipTask :=
  if t.status = SkipStatus.pending then ⟨t.plan, SkipStatus.cancelled⟩ else t

/-- Try to move task `i` from pending to status `st`; a cancelled or
completed task cannot fire, and out-of-range indices do nothing. -/
def tryComplete (st : SkipStatus) : ℕ → List SkipTask → Option (List SkipTask)
  | _, [] => none
  | 0, t :: rest =>
    if t.status = SkipStatus.pending then some (⟨t.plan, st⟩ :: rest) else none
  | n + 1, t :: rest => (tryComplete st n rest).map (fun r => t :: r)

/-- Device state: the created tasks, most recent first (the head plays the
role of `self.task`), and the log of indices whose seek actually executed. -/
structure DevState where
  tasks : List SkipTask
  seeks : List ℕ
  deriving DecidableEq, Repr

/-- One step of the discipline.  An event cancels the current task and arms
a new pending one; `fire`/`finish` only succeed on a pending task. -/
def devStep (s : DevState) : DevOp → DevState
  | DevOp.ev p =>
    match s.tasks with
    | [] => ⟨[⟨p, SkipStatus.pending⟩], s.seeks⟩
    | t :: rest => ⟨⟨p, SkipStatus.pending⟩ :: cancelTask t :: rest, s.seeks⟩
  | DevOp.fire i =>
    match tryComplete SkipStatus.fired i s.tasks with
    | none => s
    | some ts => ⟨ts, s.seeks ++ [i]⟩
  | DevOp.finish i =>
    match tryComplete SkipStatus.finished i s.tasks with
    | none => s
    | some ts => ⟨ts, s.seeks⟩

/-- Run a sequence of operations from the initial state (no task yet). -/
def devRun (ops : List DevOp) : DevState :=
  ops.foldl devStep ⟨[], []⟩

/-- Invariant of the discipline: every task below the most recent one is no
longer pending, and every executed seek was issued by the then most recent
task (index 0). -/
def DevInv (s : DevState) : Prop :=
  (∀ t ∈ s.tasks.tail, t.status ≠ SkipStatus.pending) ∧ (∀ i ∈ s.seeks, i = 0)

/-- The watchdog process of `YtLoungeApi` (`core/youtube.py`): `armed` is the
creation time of the live `_watchdog` task (if any), `es` the ordered times
of inbound events, `T` the end of the observation window.  A watchdog that
reaches 35 seconds of silence cancels `subscribe_task` and issues exactly one
fresh `subscribe` call, then ends without rearming; `_process_event` rearms
the watchdog at every event (`_reset_watchdog` cancels the previous timer).
The result counts the resubscription calls issued in the window. -/
def watchdogRun : Option ℚ → List ℚ → ℚ → ℕ
  | some a, [], T => if a + 35 ≤ T then 1 else 0
  | none, [], _ => 0
  | some a, e :: es, T =>
    if a + 35 ≤ e then 1 + watchdogRun (some e) es T
    else watchdogRun (some e) es T
  | none, e :: es, T => watchdogRun (some e) es T

/-- The silent stretches of the timeline: the delay from arming to the first
event, between consecutive events, and from the last event to the window
end. -/
def silences (a : ℚ) : List ℚ → ℚ → List ℚ
  | [], T => [T - a]
  | e :: es, T => (e - a) :: silences e es T

/-- Progress of one caller through the cache wrapper body
(`AsyncConditionalTTL.__call__`): `ready` = not yet scheduled; `awaiting` =
it ran `if key in self.ttl`, missed, and is suspended in `await func(...)`
(the fetch is underway); `finished` = it returned (either from a hit, or
after storing its own result). -/
inductive FetchStat where
  | ready
  | awaiting
  | finished
  deriving DecidableEq, Repr

/-- Read the status of caller `i`. -/
def nthStat : List FetchStat → ℕ → Option FetchStat
  | [], _ => none
  | t :: _, 0 => some t
  | _ :: rest, n + 1 => nthStat rest n

/-- Replace the status of caller `i`. -/
def setStat : List FetchStat → ℕ → FetchStat → List FetchStat
  | [], _, _ => []
  | _ :: rest, 0, v => v :: rest
  | t :: rest, n + 1, v => t :: setStat rest n v

/-- Wrapper state for one key: whether a value is stored, how many times the
wrapped function was invoked, and each caller's progress. -/
structure CollapseState where
  cached : Bool
  fetches : ℕ
  tasks : List FetchStat
  deriving DecidableEq, Repr

/-- One scheduling slice handed to caller `i`.  The wrapper body has exactly
one suspension point (`await func(...)`): a freshly scheduled caller checks
the cache and, on a miss, immediately starts its own fetch — there is no
lock and no in-flight-future table — and on its next slice stores the result
and returns.  A caller scheduled after a store observes the hit and returns
without fetching. -/
def collapseStep (s : CollapseState) (i : ℕ) : CollapseState :=
  match nthStat s.tasks i with
  | none => s
  | some FetchStat.ready =>
    if s.cached then ⟨s.cached, s.fetches, setStat s.tasks i FetchStat.finished⟩
    else ⟨s.cached, s.fetches + 1, setStat s.tasks i FetchStat.awaiting⟩
  | some FetchStat.awaiting =>
    ⟨true, s.fetches, setStat s.tasks i FetchStat.finished⟩
  | some FetchStat.finished => s

/-- Run `n` concurrent callers of the same uncached key under the given
schedule of slices. -/
def collapseRun (n : ℕ) (sched : List ℕ) : CollapseState :=
  sched.foldl collapseStep ⟨false, 0, List.replicate n FetchStat.ready⟩

/-- How many callers have already run their cache check. -/
def startedCount (s : CollapseState) : ℕ :=
  s.tasks.countP (fun t => !(t == FetchStat.ready))

namespace Core

/-- Working segment of `core/sponsorblock.py`: the `[start, end]` pair
(entries 0 and 1 of the `segment` list, the only ones ever read) plus the
optional `UUID` and `locked` fields. -/
structure WSeg where
  start : ℚ
  stop : ℚ
  uuid : Option String
  locked : Option Int
  deriving DecidableEq, Repr

/-- Extract the fields read by the sort keys; `none` when the record would
raise (`segment` missing, or fewer than two entries for `x["segment"][1]`). -/
def toWSeg (r : RawRecord) : Option WSeg :=
  match r.segment with
  | some (s0 :: s1 :: _) => some ⟨s0, s1, r.uuid, r.locked⟩
  | _ => none

/-- The end-extension pass (`core/sponsorblock.py` lines 59-62): for each
`i` in list order, for each `j` in list order, if `j.start <= i.end <=
j.end` then `i.end = j.end`, reading the current state at every step. -/
def extendEnds (l : List WSeg) : List WSeg :=
  (List.range l.length).foldl (fun cur i =>
    (List.range l.length).foldl (fun cur2 j =>
      let si := cur2.getD i ⟨0, 0, none, none⟩
      let sj := cur2.getD j ⟨0, 0, none, none⟩
      if sj.start ≤ si.stop ∧ si.stop ≤ sj.stop then
        cur2.set i ⟨si.start, sj.stop, si.uuid, si.locked⟩
      else cur2) cur) l

/-- The start-extension pass (lines 67-70), iterating both loops in
reversed order: if `j.start <= i.start <= j.end` then `i.start = j.start`. -/
def extendStarts (l : List WSeg) : List WSeg :=
  ((List.range l.length).reverse).foldl (fun cur i =>
    ((List.range l.length).reverse).foldl (fun cur2 j =>
      let si := cur2.getD i ⟨0, 0, none, none⟩
      let sj := cur2.getD j ⟨0, 0, none, none⟩
      if sj.start ≤ si.start ∧ si.start ≤ sj.stop then
        cur2.set i ⟨sj.start, si.stop, si.uuid, si.locked⟩
      else cur2) cur) l

/-- The final combining loop (lines 72-93) with the surrounding
`try/except Exception: pass`: any exception returns the segments and
`ignore_ttl` accumulated so far.  `ignore_ttl = ignore_ttl and i["locked"]
== 1` short-circuits, so a missing `locked` raises only while `ignore_ttl`
is still true (the assignment then never happens); a missing `UUID` raises
after the `ignore_ttl` update; a first record with `start < -9` would enter
the combine branch against the sentinel `segment_before_end = -10` and hit
an undefined `segment_before_start`.  The accumulator is reversed (head =
`segments[-1]`). -/
def combineWalk : List WSeg → List MSeg → Bool → List MSeg × Bool
  | [], acc, ttl => (acc.reverse, ttl)
  | i :: rest, acc, ttl =>
    let ttlStep : Option Bool :=
      match ttl, i.locked with
      | true, none => none
      | true, some lk => some (lk == 1)
      | false, _ => some false
    match ttlStep with
    | none => (acc.reverse, ttl)
    | some ttlNext =>
      match i.uuid with
      | none => (acc.reverse, ttlNext)
      | some u =>
        match acc with
        | [] =>
          if i.start - (-10) < 1 then ([], ttlNext)
          else combineWalk rest [⟨i.start, i.stop, [u]⟩] ttlNext
        | p :: t =>
          if i.start - p.stop < 1 then
            combineWalk rest (⟨p.start, i.stop, u :: p.ids⟩ :: t) ttlNext
          else
            combineWalk rest (⟨i.start, i.stop, [u]⟩ :: p :: t) ttlNext

/-- `ApiHelper.process_segments` of `core/sponsorblock.py`: inside one big
`try`, sort by segment end, extend overlapping ends, sort by start, extend
overlapping starts, then combine segments closer than 1 second.  The sort
key `x["segment"][1]` raises on any record without a two-entry segment
pair, which the blanket `except` turns into `([], True)`. -/
def processSegments (recs : List RawRecord) : List MSeg × Bool :=
  if recs.any (fun r => (toWSeg r).isNone) then ([], true)
  else
    let ws := recs.filterMap toWSeg
    let s1 := List.insertionSort (fun a b : WSeg => a.stop ≤ b.stop) ws
    let e1 := extendEnds s1
    let s2 := List.insertionSort (fun a b : WSeg => a.start ≤ b.start) e1
    let e2 := extendStarts s2
    combineWalk e2 [] true

end Core

namespace ApiHelpers

theorem foldl_pair (gap : ℚ) :
    ∀ (l : List RawSeg) (acc : List MSeg) (b : Bool),
      l.foldl (fun st s => (mergeStep gap st.1 s, st.2 && lockedFlag s)) (acc, b)
        = (l.foldl (mergeStep gap) acc,
           l.foldl (fun x s => x && lockedFlag s) b) := by
  intro l
  induction l with
  | nil => intro acc b; rfl
  | cons s t ih => intro acc b; simp only [List.foldl_cons]; exact ih _ _

theorem foldl_and_eq_all :
    ∀ (l : List RawSeg) (b : Bool),
      l.foldl (fun x s => x && lockedFlag s) b = (b && l.all lockedFlag) := by
  intro l
  induction l with
  | nil => intro b; simp
  | cons s t ih =>
    intro b
    simp only [List.foldl_cons, List.all_cons, ih, Bool.and_assoc]

theorem mergeStep_ids_flatten (gap : ℚ) (acc : List MSeg) (s : RawSeg) :
    (((mergeStep gap acc s).reverse.map MSeg.ids)).flatten
      = ((acc.reverse.map MSeg.ids)).flatten ++ [s.uuid] := by
  match acc with
  | [] => simp [mergeStep]
  | m :: rest =>
    simp only [mergeStep]
    by_cases h1 : s.start - m.stop < gap
    · simp [h1, List.flatten_append]
    · by_cases h2 : s.start ≤ m.stop
      · simp [h1, h2, List.flatten_append]
      · simp [h1, h2, List.flatten_append]

theorem mergeFold_ids (gap : ℚ) :
    ∀ (l : List RawSeg) (acc : List MSeg),
      (((l.foldl (mergeStep gap) acc).reverse.map MSeg.ids)).flatten
        = ((acc.reverse.map MSeg.ids)).flatten ++ l.map RawSeg.uuid := by
  intro l
  induction l with
  | nil => intro acc; simp
  | cons s t ih =>
    intro acc
    simp only [List.foldl_cons, List.map_cons, ih, mergeStep_ids_flatten]
    simp [List.append_assoc]

theorem mergeFold_inv (gap : ℚ) :
    ∀ (l : List RawSeg) (m : MSeg) (acc : List MSeg),
      List.Pairwise (fun a b : RawSeg => a.start ≤ b.start) l →
      (∀ s ∈ l, s.start ≤ s.stop) →
      List.Chain' (fun b a => SegChain gap a b) (m :: acc) →
      (∀ x ∈ m :: acc, x.start ≤ x.stop) →
      (∀ s ∈ l, m.start ≤ s.start) →
      List.Chain' (fun b a => SegChain gap a b) (l.foldl (mergeStep gap) (m :: acc))
        ∧ (∀ x ∈ l.foldl (mergeStep gap) (m :: acc), x.start ≤ x.stop) := by
  intro l
  induction l with
  | nil =>
    intro m acc _ _ hch hwf _
    exact ⟨hch, hwf⟩
  | cons s t ih =>
    intro m acc hsort hwfl hch hwf hle
    have hms : m.start ≤ s.start := hle s (by simp)
    have hss : s.start ≤ s.stop := hwfl s (by simp)
    have hsort' : List.Pairwise (fun a b : RawSeg => a.start ≤ b.start) t :=
      (List.pairwise_cons.mp hsort).2
    have hst : ∀ x ∈ t, s.start ≤ x.start := (List.pairwise_cons.mp hsort).1
    have hwfl' : ∀ x ∈ t, x.start ≤ x.stop := fun x hx => hwfl x (by simp [hx])
    simp only [List.foldl_cons]
    simp only [mergeStep]
    by_cases h1 : s.start - m.stop < gap
    · -- gap-merge branch: the previous end is overwritten with the new end
      simp only [if_pos h1]
      refine ih ⟨m.start, s.stop, m.ids ++ [s.uuid]⟩ acc hsort' hwfl' ?_ ?_ ?_
      · -- the chain survives since only the head's end changed
        cases acc with
        | nil => exact List.chain'_singleton _
        | cons a rest =>
          have hrel := (List.chain'_cons.mp hch).1
          have hrest := (List.chain'_cons.mp hch).2
          refine List.chain'_cons.mpr ⟨?_, hrest⟩
          obtain ⟨hwa, _, hlt, hgap⟩ := hrel
          exact ⟨hwa, le_trans hms hss, hlt, hgap⟩
      · intro x hx
        rcases List.mem_cons.mp hx with h | h
        · subst h; exact le_trans hms hss
        · exact hwf x (by simp [h])
      · intro x hx; exact le_trans hms (hst x hx)
    · by_cases h2 : s.start ≤ m.stop
      · -- overlap branch: end becomes the max of the two ends
        simp only [if_neg h1, if_pos h2]
        refine ih ⟨m.start, max m.stop s.stop, m.ids ++ [s.uuid]⟩ acc hsort' hwfl' ?_ ?_ ?_
        · cases acc with
          | nil => exact List.chain'_singleton _
          | cons a rest =>
            have hrel := (List.chain'_cons.mp hch).1
            have hrest := (List.chain'_cons.mp hch).2
            refine List.chain'_cons.mpr ⟨?_, hrest⟩
            obtain ⟨hwa, _, hlt, hgap⟩ := hrel
            have hmm : m.start ≤ m.stop := hwf m (by simp)
            exact ⟨hwa, le_trans hmm (le_max_left _ _), hlt, hgap⟩
        · intro x hx
          rcases List.mem_cons.mp hx with h | h
          · subst h
            exact le_trans (hwf m (by simp)) (le_max_left _ _)
          · exact hwf x (by simp [h])
        · intro x hx; exact le_trans hms (hst x hx)
      · -- new merged segment is opened
        simp only [if_neg h1, if_neg h2]
        refine ih ⟨s.start, s.stop, [s.uuid]⟩ (m :: acc) hsort' hwfl' ?_ ?_ ?_
        · refine List.chain'_cons.mpr ⟨?_, hch⟩
          refine ⟨hwf m (by simp), hss, lt_of_not_le h2, ?_⟩
          have := not_lt.mp h1
          linarith
        · intro x hx
          rcases List.mem_cons.mp hx with h | h
          · subst h; exact hss
          · exact hwf x h
        · intro x hx; exact hst x hx

theorem sortByStart_pairwise (raws : List RawSeg) :
    List.Pairwise (fun a b : RawSeg => a.start ≤ b.start) (sortByStart raws) :=
  List.sorted_insertionSort (fun a b : RawSeg => a.start ≤ b.start) raws

theorem sortByStart_perm (raws : List RawSeg) : (sortByStart raws).Perm raws :=
  List.perm_insertionSort (fun a b : RawSeg => a.start ≤ b.start) raws

theorem processSegments_eq (gap : ℚ) (raws : List RawSeg) :
    processSegments gap raws
      = (((sortByStart raws).foldl (mergeStep gap) []).reverse,
         (sortByStart raws).all lockedFlag) := by
  simp only [processSegments, foldl_pair, foldl_and_eq_all, Bool.true_and]

/-- Claim C1: for every list of raw segment records (with well-formed
`[start, end]` pairs), the merged output of the resolver is sorted by start
time, pairwise non-overlapping with the gap between consecutive merged
segments at least the merge threshold, and the concatenation of the output
identifier lists is a permutation of the input identifiers, i.e. every input
identifier appears in exactly one output segment. -/
theorem segments_merge_correct (gap : ℚ) (raws : List RawSeg)
    (hwf : ∀ s ∈ raws, s.start ≤ s.stop) :
    (processSegments gap raws).1.Pairwise
        (fun a b => a.start ≤ b.start ∧ a.stop < b.start ∧ gap ≤ b.start - a.stop)
      ∧ (((processSegments gap raws).1.map MSeg.ids).flatten).Perm
          (raws.map RawSeg.uuid) := by
  have hperm := sortByStart_perm raws
  have hsorted := sortByStart_pairwise raws
  have hwfs : ∀ s ∈ sortByStart raws, s.start ≤ s.stop :=
    fun s hs => hwf s (hperm.mem_iff.mp hs)
  rw [processSegments_eq]
  constructor
  · -- ordering, disjointness and minimum-gap of the merged output
    have hchain :
        List.Chain' (fun b a => SegChain gap a b)
          ((sortByStart raws).foldl (mergeStep gap) [])
        ∨ (sortByStart raws).foldl (mergeStep gap) [] = [] := by
      cases hs : sortByStart raws with
      | nil => right; rfl
      | cons s t =>
        left
        have hsorted' := hs ▸ hsorted
        have hwfs' := fun x hx => hwfs x (hs ▸ hx)
        have h1 := (List.pairwise_cons.mp hsorted').1
        have h2 := (List.pairwise_cons.mp hsorted').2
        have hstep : (s :: t).foldl (mergeStep gap) []
            = t.foldl (mergeStep gap) [⟨s.start, s.stop, [s.uuid]⟩] := by
          simp [mergeStep]
        rw [hstep]
        refine (mergeFold_inv gap t ⟨s.start, s.stop, [s.uuid]⟩ [] h2 ?_ ?_ ?_ ?_).1
        · intro x hx; exact hwfs' x (List.mem_cons_of_mem _ hx)
        · exact List.chain'_singleton _
        · intro x hx
          rcases List.mem_singleton.mp hx with h
          subst h
          exact hwfs' s (by simp)
        · intro x hx; exact h1 x hx
    rcases hchain with hchain | hnil
    · have hrev : List.Chain' (SegChain gap)
          (((sortByStart raws).foldl (mergeStep gap) []).reverse) := by
        rw [List.chain'_reverse]
        exact hchain
      have hpw : (((sortByStart raws).foldl (mergeStep gap) []).reverse).Pairwise
          (SegChain gap) := List.chain'_iff_pairwise.mp hrev
      exact hpw.imp (fun h => ⟨le_trans h.1 (le_of_lt h.2.2.1), h.2.2.1, h.2.2.2⟩)
    · rw [hnil]; simp
  · -- identifier preservation
    have := mergeFold_ids gap (sortByStart raws) []
    simp only [List.reverse_nil, List.map_nil, List.flatten_nil, List.nil_append] at this
    rw [this]
    exact hperm.map RawSeg.uuid

/-- Witness for C1 at the spec's own example: raw segments
`[{0,10,locked},{9,20,unlocked},{25,30,unlocked}]` with merge threshold 3. -/
theorem segments_merge_correct_witness :
    (∀ s ∈ ([⟨0, 10, "a", some 1⟩, ⟨9, 20, "b", some 0⟩,
             ⟨25, 30, "c", some 0⟩] : List RawSeg), s.start ≤ s.stop)
    ∧ ((processSegments 3 [⟨0, 10, "a", some 1⟩, ⟨9, 20, "b", some 0⟩,
          ⟨25, 30, "c", some 0⟩]).1.Pairwise
          (fun a b => a.start ≤ b.start ∧ a.stop < b.start ∧ 3 ≤ b.start - a.stop)
        ∧ (((processSegments 3 [⟨0, 10, "a", some 1⟩, ⟨9, 20, "b", some 0⟩,
              ⟨25, 30, "c", some 0⟩]).1.map MSeg.ids).flatten).Perm
            (([⟨0, 10, "a", some 1⟩, ⟨9, 20, "b", some 0⟩,
               ⟨25, 30, "c", some 0⟩] : List RawSeg).map RawSeg.uuid)) := by
  have hwf : ∀ s ∈ ([⟨0, 10, "a", some 1⟩, ⟨9, 20, "b", some 0⟩,
      ⟨25, 30, "c", some 0⟩] : List RawSeg), s.start ≤ s.stop := by
    intro s hs
    simp only [List.mem_cons, List.not_mem_nil, or_false] at hs
    rcases hs with h | h | h <;> subst h <;> norm_num
  exact ⟨hwf, segments_merge_correct 3 _ hwf⟩

/-- Claim C8: evaluation of the merge walk at segments `[0,100]` and `[1,2]`
with threshold 1.  The second segment's start lies inside the first
(`1 - 100 = -99 < 1` hits the gap branch, which also captures every overlap,
since an overlapping start makes the difference nonpositive), and the gap
branch assigns the new end unconditionally: the merged end becomes 2, not
`max 100 2 = 100`, so merging a contained segment shrinks the merged end.
The dedicated overlap branch that does take the max is unreachable for any
positive threshold. -/
theorem merge_gap_branch_shrinks_end :
    (processSegments 1 [⟨0, 100, "a", some 0⟩, ⟨1, 2, "b", some 0⟩]).1
        = [⟨0, 2, ["a", "b"]⟩]
      ∧ max (100 : ℚ) 2 = 100 ∧ (2 : ℚ) ≠ 100 := by
  refine ⟨?_, by norm_num, by norm_num⟩
  norm_num [processSegments, sortByStart, List.insertionSort, List.orderedInsert,
    mergeStep, lockedFlag]

theorem perm_all_eq {l₁ l₂ : List RawSeg} (h : l₁.Perm l₂) (p : RawSeg → Bool) :
    l₁.all p = l₂.all p := by
  rw [Bool.eq_iff_iff]
  simp only [List.all_eq_true]
  exact ⟨fun H x hx => H x (h.mem_iff.mpr hx), fun H x hx => H x (h.mem_iff.mp hx)⟩

/-- Claim C2: the `cache_forever` flag returned by the resolver is true
exactly when the video is whitelisted, or the fetch failed, or every raw
segment contributing to the resolution carries `locked == 1`; in particular
one unlocked raw segment anywhere in the input makes the result
non-cache-forever, and nothing else makes the flag true.  (An input with no
contributing raw segments — no matching record, a matching record without a
`segments` key, or an empty segment list — is the vacuous case of
"every contributing raw segment is locked".) -/
theorem cache_forever_iff (gap : ℚ) (w ok : Bool) (recs : List SBRecord)
    (vid : String) :
    (getSegments gap w ok recs vid).2
      = (w || !ok || (contributingSegs recs vid).all lockedFlag) := by
  by_cases hw : w = true
  · simp [getSegments, hw]
  · have hw' : w = false := by
      cases w
      · rfl
      · exact absurd rfl hw
    by_cases hok : ok = true
    · cases hf : recs.find? (fun r => r.videoID == vid) with
      | none => simp [getSegments, contributingSegs, hw', hok, hf]
      | some r =>
        cases hseg : r.segments with
        | none => simp [getSegments, contributingSegs, hw', hok, hf, hseg]
        | some segs =>
          simp only [getSegments, contributingSegs, hw', hok, hf, hseg,
            Bool.false_or, Bool.not_true, if_false, Bool.false_eq_true,
            processSegments_eq, Option.getD_some]
          exact perm_all_eq (sortByStart_perm segs) lockedFlag
    · have hok' : ok = false := by
        cases ok
        · rfl
        · exact absurd rfl hok
      simp [getSegments, hw', hok']

end ApiHelpers

/-- Claim C4: when the segment fetch fails (non-200 response), `get_segments`
returns the empty segment list flagged cache-forever instead of propagating
an error, and the cached wrapper stores that empty result with no expiry, so
a lookup at any later time still returns it. -/
theorem fetch_failure_cached_forever (gap : ℚ) (recs : List ApiHelpers.SBRecord)
    (vid : String) (now ttl : ℚ) (c : Cache (List MSeg))
    (hmiss : cacheLookup now c vid = none) :
    ApiHelpers.getSegments gap false false recs vid = ([], true)
      ∧ (cachedCall now (some ttl) c vid
          ((ApiHelpers.getSegments gap false false recs vid).1,
           (ApiHelpers.getSegments gap false false recs vid).2)).1 = []
      ∧ ∀ later : ℚ,
          cacheLookup later
            (cachedCall now (some ttl) c vid
              ((ApiHelpers.getSegments gap false false recs vid).1,
               (ApiHelpers.getSegments gap false false recs vid).2)).2 vid
            = some [] := by
  have hres : ApiHelpers.getSegments gap false false recs vid = ([], true) := by
    simp [ApiHelpers.getSegments]
  refine ⟨hres, ?_, ?_⟩
  · simp [cachedCall, hmiss, hres]
  · intro later
    simp only [cachedCall, hmiss, hres]
    simp [ttlSetItem, cacheLookup, List.find?_cons_of_pos]

/-- Witness for C4: empty cache, failing fetch; the stored empty result is
still served one million seconds later. -/
theorem fetch_failure_cached_forever_witness :
    cacheLookup 0 ([] : Cache (List MSeg)) "vid" = none
      ∧ (ApiHelpers.getSegments 1 false false [] "vid" = ([], true)
        ∧ (cachedCall 0 (some 300) ([] : Cache (List MSeg)) "vid"
            ((ApiHelpers.getSegments 1 false false [] "vid").1,
             (ApiHelpers.getSegments 1 false false [] "vid").2)).1 = []
        ∧ ∀ later : ℚ,
            cacheLookup later
              (cachedCall 0 (some 300) ([] : Cache (List MSeg)) "vid"
                ((ApiHelpers.getSegments 1 false false [] "vid").1,
                 (ApiHelpers.getSegments 1 false false [] "vid").2)).2 "vid"
              = some []) := by
  have hmiss : cacheLookup 0 ([] : Cache (List MSeg)) "vid" = none := by
    simp [cacheLookup, List.find?]
  exact ⟨hmiss, fetch_failure_cached_forever 1 [] "vid" 0 300 [] hmiss⟩

/-- Claim C3 counterexample: with the single segment `{0,5}` and position 0
the selection loop does pick the segment (position is inside it and
`0 < 2`), so by the claim a skip with delay `0 - 0 - 0 - 0 = 0` and target 5
should be scheduled, but `time_to_segment` schedules nothing: the falsy
guard swallows the zero effective start. -/
theorem time_to_segment_zero_start_skipped :
    findNext [⟨0, 5, ["u"]⟩] 0 = some (0, ⟨0, 5, ["u"]⟩)
      ∧ timeToSegment [⟨0, 5, ["u"]⟩] 0 0 0 = none := by
  constructor
  · norm_num [findNext]
  · norm_num [timeToSegment, findNext]

/-- Claim C3 as amended: whenever the selection loop finds a segment and the
effective start is nonzero, the scheduled skip has delay
`effective_start - position - elapsed - offset` and target `segment.end`;
when the loop finds nothing, no action is scheduled.  (The amendment adds
the nonzero proviso forced by the falsy-zero guard, see C10.) -/
theorem time_to_segment_schedule (segments : List MSeg)
    (position elapsed offset s : ℚ) (seg : MSeg) :
    (findNext segments position = some (s, seg) → s ≠ 0 →
        timeToSegment segments position elapsed offset
          = some (s - position - elapsed - offset, seg.stop, seg.ids))
      ∧ (findNext segments position = none →
        timeToSegment segments position elapsed offset = none) := by
  constructor
  · intro hfind hs
    simp [timeToSegment, hfind, hs]
  · intro hfind
    simp [timeToSegment, hfind]

/-- Witness for C3 at the spec's example: segment `{30,45}`, position 10,
elapsed 0.5, offset 2 gives delay 17.5 and target 45. -/
theorem time_to_segment_schedule_witness :
    findNext [⟨30, 45, ["x"]⟩] 10 = some (30, ⟨30, 45, ["x"]⟩)
      ∧ (30 : ℚ) ≠ 0
      ∧ timeToSegment [⟨30, 45, ["x"]⟩] 10 (1/2) 2
          = some (35/2, 45, ["x"]) := by
  have hfind : findNext [⟨30, 45, ["x"]⟩] 10 = some (30, ⟨30, 45, ["x"]⟩) := by
    norm_num [findNext]
  have h30 : (30 : ℚ) ≠ 0 := by norm_num
  refine ⟨hfind, h30, ?_⟩
  have := (time_to_segment_schedule [⟨30, 45, ["x"]⟩] 10 (1/2) 2 30
    ⟨30, 45, ["x"]⟩).1 hfind h30
  rw [this]
  norm_num

/-- Claim C10: when the playback position is exactly 0 and the selected
segment's effective start is therefore 0, `time_to_segment` schedules no
skip at all — the guard `if start_next_segment:` treats 0 as absent. -/
theorem zero_effective_start_never_skips (segments : List MSeg) (seg : MSeg)
    (elapsed offset : ℚ) (hfind : findNext segments 0 = some (0, seg)) :
    timeToSegment segments 0 elapsed offset = none := by
  simp [timeToSegment, hfind]

/-- Witness for C10: position 0 inside the segment `{0,5}`. -/
theorem zero_effective_start_never_skips_witness :
    findNext [⟨0, 5, ["w"]⟩] 0 = some (0, ⟨0, 5, ["w"]⟩)
      ∧ timeToSegment [⟨0, 5, ["w"]⟩] 0 3 (1/4) = none := by
  have hfind : findNext [⟨0, 5, ["w"]⟩] 0 = some (0, ⟨0, 5, ["w"]⟩) := by
    norm_num [findNext]
  exact ⟨hfind, zero_effective_start_never_skips [⟨0, 5, ["w"]⟩] _ 3 (1/4) hfind⟩

theorem tryComplete_some_pending (st : SkipStatus) :
    ∀ (n : ℕ) (l : List SkipTask) (r : List SkipTask),
      tryComplete st n l = some r →
      ∃ t ∈ l, t.status = SkipStatus.pending := by
  intro n
  induction n with
  | zero =>
    intro l r h
    match l with
    | [] => simp [tryComplete] at h
    | t :: rest =>
      simp only [tryComplete] at h
      by_cases hp : t.status = SkipStatus.pending
      · exact ⟨t, by simp, hp⟩
      · simp [hp] at h
  | succ n ih =>
    intro l r h
    match l with
    | [] => simp [tryComplete] at h
    | t :: rest =>
      simp only [tryComplete] at h
      cases hr : tryComplete st n rest with
      | none => rw [hr] at h; simp at h
      | some r' =>
        obtain ⟨t', ht', hp'⟩ := ih rest r' hr
        exact ⟨t', by simp [ht'], hp'⟩

theorem tryComplete_succ_pending_tail (st : SkipStatus) (n : ℕ)
    (t : SkipTask) (rest : List SkipTask) (r : List SkipTask)
    (h : tryComplete st (n + 1) (t :: rest) = some r) :
    ∃ t' ∈ rest, t'.status = SkipStatus.pending := by
  simp only [tryComplete] at h
  cases hr : tryComplete st n rest with
  | none => rw [hr] at h; simp at h
  | some r' => exact tryComplete_some_pending st n rest r' hr

theorem tryComplete_zero_tail (st : SkipStatus) (l : List SkipTask)
    (r : List SkipTask) (h : tryComplete st 0 l = some r) :
    r.tail = l.tail := by
  match l with
  | [] => simp [tryComplete] at h
  | t :: rest =>
    simp only [tryComplete] at h
    by_cases hp : t.status = SkipStatus.pending
    · simp only [hp, if_true, Option.some_inj] at h
      subst h
      rfl
    · simp [hp] at h

theorem devStep_inv (s : DevState) (op : DevOp) (h : DevInv s) :
    DevInv (devStep s op) := by
  obtain ⟨h1, h2⟩ := h
  cases op with
  | ev p =>
    cases hts : s.tasks with
    | nil =>
      constructor
      · simp [devStep, hts]
      · simp only [devStep, hts]
        exact h2
    | cons t rest =>
      constructor
      · intro x hx
        simp only [devStep, hts, List.tail_cons] at hx
        rcases List.mem_cons.mp hx with hx | hx
        · subst hx
          by_cases hp : t.status = SkipStatus.pending
          · simp [cancelTask, hp]
          · simp [cancelTask, hp]
        · exact h1 x (by simp [hts, hx])
      · simp only [devStep, hts]
        exact h2
  | fire i =>
    simp only [devStep]
    cases htc : tryComplete SkipStatus.fired i s.tasks with
    | none => exact ⟨h1, h2⟩
    | some ts =>
      have hi0 : i = 0 := by
        by_contra hne
        obtain ⟨n, rfl⟩ : ∃ n, i = n + 1 := ⟨i - 1, by omega⟩
        cases hts : s.tasks with
        | nil => rw [hts] at htc; simp [tryComplete] at htc
        | cons t rest =>
          rw [hts] at htc
          obtain ⟨t', ht', hp'⟩ :=
            tryComplete_succ_pending_tail SkipStatus.fired n t rest ts htc
          exact absurd hp' (h1 t' (by simp [hts, ht']))
      subst hi0
      have heq := tryComplete_zero_tail SkipStatus.fired s.tasks ts htc
      constructor
      · intro x hx
        exact h1 x (heq ▸ hx)
      · intro j hj
        rcases List.mem_append.mp hj with hj | hj
        · exact h2 j hj
        · exact List.mem_singleton.mp hj
  | finish i =>
    simp only [devStep]
    cases htc : tryComplete SkipStatus.finished i s.tasks with
    | none => exact ⟨h1, h2⟩
    | some ts =>
      have hi0 : i = 0 := by
        by_contra hne
        obtain ⟨n, rfl⟩ : ∃ n, i = n + 1 := ⟨i - 1, by omega⟩
        cases hts : s.tasks with
        | nil => rw [hts] at htc; simp [tryComplete] at htc
        | cons t rest =>
          rw [hts] at htc
          obtain ⟨t', ht', hp'⟩ :=
            tryComplete_succ_pending_tail SkipStatus.finished n t rest ts htc
          exact absurd hp' (h1 t' (by simp [hts, ht']))
      subst hi0
      have heq := tryComplete_zero_tail SkipStatus.finished s.tasks ts htc
      constructor
      · intro x hx
        exact h1 x (heq ▸ hx)
      · exact h2

/-- Claim C5: under the `__call__` discipline (each new playback event
cancels the current task before arming a new one), after any operation
sequence at most one task is pending — every task other than the most
recently armed is cancelled or completed — and every seek that ever executed
was issued by the task that was the most recently armed at that moment
(index 0 in the task list, newest first). -/
theorem skip_supersession (ops : List DevOp) :
    (∀ t ∈ (devRun ops).tasks.tail, t.status ≠ SkipStatus.pending)
      ∧ (∀ i ∈ (devRun ops).seeks, i = 0) := by
  have hinv : DevInv (devRun ops) := by
    unfold devRun
    induction ops using List.reverseRecOn with
    | nil => exact ⟨by simp, by simp⟩
    | append_singleton l op ih =>
      rw [List.foldl_append, List.foldl_cons, List.foldl_nil]
      exact devStep_inv _ op ih
  exact hinv

/-- Witness for C5: two events, then attempts to fire both the stale and the
fresh task — the superseded task stays cancelled and only index 0 ever
seeks. -/
theorem skip_supersession_witness :
    ((⟨5, SkipStatus.cancelled⟩ : SkipTask).status ≠ SkipStatus.pending)
      ∧ ∀ i ∈ (devRun [DevOp.ev 5, DevOp.ev 7, DevOp.fire 1,
          DevOp.fire 0]).seeks, i = 0 := by
  constructor
  · exact (skip_supersession [DevOp.ev 5, DevOp.ev 7, DevOp.fire 1,
      DevOp.fire 0]).1 ⟨5, SkipStatus.cancelled⟩ (by decide)
  · exact (skip_supersession [DevOp.ev 5, DevOp.ev 7, DevOp.fire 1,
      DevOp.fire 0]).2

theorem watchdogRun_eq_count (T : ℚ) :
    ∀ (es : List ℚ) (a : ℚ),
      watchdogRun (some a) es T = (silences a es T).countP (fun g => 35 ≤ g) := by
  intro es
  induction es with
  | nil =>
    intro a
    simp only [watchdogRun, silences, List.countP_cons, List.countP_nil]
    by_cases h : a + 35 ≤ T
    · have h' : 35 ≤ T - a := by linarith
      simp [h, h']
    · have h' : ¬35 ≤ T - a := by intro hc; exact h (by linarith)
      simp [h, h']
  | cons e es ih =>
    intro a
    simp only [watchdogRun, silences, List.countP_cons]
    by_cases h : a + 35 ≤ e
    · have h' : 35 ≤ e - a := by linarith
      simp [h, h', ih]
      omega
    · have h' : ¬35 ≤ e - a := by intro hc; exact h (by linarith)
      simp [h, h', ih]

/-- Claim C6: while subscribed (watchdog armed at time `a`), if every silent
stretch of the timeline is shorter than 35 seconds — every inbound event
arrives before the pending deadline — no resubscription is ever issued; and
if exactly one silent stretch reaches 35 seconds, the watchdog issues
exactly one fresh subscribe call. -/
theorem watchdog_restarts (a T : ℚ) (es : List ℚ) :
    ((∀ g ∈ silences a es T, g < 35) → watchdogRun (some a) es T = 0)
      ∧ ((silences a es T).countP (fun g => 35 ≤ g) = 1 →
        watchdogRun (some a) es T = 1) := by
  constructor
  · intro hall
    rw [watchdogRun_eq_count]
    rw [List.countP_eq_zero]
    intro g hg
    simp only [decide_eq_true_eq]
    exact not_le.mpr (hall g hg)
  · intro hone
    rw [watchdogRun_eq_count, hone]

/-- Witness for C6, both parts: with the watchdog armed at 0, events at 10
and 50 and window end 60 there is exactly one 35-second silence (10 to 50)
and exactly one resubscription; with events at 30 and 60 and window end 80
every silence is below 35 seconds and no resubscription happens. -/
theorem watchdog_restarts_witness :
    (watchdogRun (some 0) [10, 50] 60 = 1)
      ∧ (watchdogRun (some 0) [30, 60] 80 = 0) := by
  constructor
  · refine (watchdog_restarts 0 60 [10, 50]).2 ?_
    norm_num [silences, List.countP_cons]
  · refine (watchdog_restarts 0 80 [30, 60]).1 ?_
    intro g hg
    norm_num [silences] at hg
    rcases hg with h | h <;> rw [h] <;> norm_num

/-- Claim C7 counterexample: two concurrent callers of the same uncached
key, interleaved at the suspension point (`[0, 1, 0, 1]`: both check before
either stores), both invoke the wrapped fetch — 2 fetches, not the claimed
exactly 1 — and both run to completion. -/
theorem collapse_two_fetches :
    (collapseRun 2 [0, 1, 0, 1]).fetches = 2
      ∧ (collapseRun 2 [0, 1, 0, 1]).tasks
          = [FetchStat.finished, FetchStat.finished]
      ∧ (2 : ℕ) ≠ 1 := by
  refine ⟨by decide, by decide, by decide⟩

theorem setStat_length :
    ∀ (l : List FetchStat) (i : ℕ) (w : FetchStat),
      (setStat l i w).length = l.length := by
  intro l
  induction l with
  | nil => intro i w; rfl
  | cons t rest ih =>
    intro i w
    cases i with
    | zero => rfl
    | succ n => simp [setStat, ih]

theorem countP_setStat (p : FetchStat → Bool) :
    ∀ (l : List FetchStat) (i : ℕ) (v w : FetchStat),
      nthStat l i = some v →
      (setStat l i w).countP p + (if p v then 1 else 0)
        = l.countP p + (if p w then 1 else 0) := by
  intro l
  induction l with
  | nil => intro i v w h; simp [nthStat] at h
  | cons t rest ih =>
    intro i v w h
    cases i with
    | zero =>
      simp only [nthStat, Option.some_inj] at h
      subst h
      simp only [setStat, List.countP_cons]
      omega
    | succ n =>
      simp only [nthStat] at h
      have := ih n v w h
      simp only [setStat, List.countP_cons]
      omega

theorem collapseStep_bound (s : CollapseState) (i : ℕ)
    (h : s.fetches ≤ startedCount s) :
    (collapseStep s i).fetches ≤ startedCount (collapseStep s i) := by
  unfold collapseStep
  cases hn : nthStat s.tasks i with
  | none => exact h
  | some v =>
    cases v with
    | ready =>
      cases hc : s.cached with
      | true =>
        simp only [hc, if_true]
        unfold startedCount at h ⊢
        dsimp only
        have hcount := countP_setStat (fun t => !(t == FetchStat.ready)) s.tasks i
          FetchStat.ready FetchStat.finished hn
        simp only [beq_self_eq_true, Bool.not_true] at hcount
        simp only [show ((FetchStat.finished == FetchStat.ready) = false) from rfl,
          Bool.not_false] at hcount
        norm_num at hcount
        omega
      | false =>
        simp only [hc, Bool.false_eq_true, if_false]
        unfold startedCount at h ⊢
        dsimp only
        have hcount := countP_setStat (fun t => !(t == FetchStat.ready)) s.tasks i
          FetchStat.ready FetchStat.awaiting hn
        simp only [beq_self_eq_true, Bool.not_true] at hcount
        simp only [show ((FetchStat.awaiting == FetchStat.ready) = false) from rfl,
          Bool.not_false] at hcount
        norm_num at hcount
        omega
    | awaiting =>
      unfold startedCount at h ⊢
      dsimp only
      have hcount := countP_setStat (fun t => !(t == FetchStat.ready)) s.tasks i
        FetchStat.awaiting FetchStat.finished hn
      simp only [show ((FetchStat.awaiting == FetchStat.ready) = false) from rfl,
        show ((FetchStat.finished == FetchStat.ready) = false) from rfl,
        Bool.not_false] at hcount
      omega
    | finished => exact h

theorem collapseStep_length (s : CollapseState) (i : ℕ) :
    (collapseStep s i).tasks.length = s.tasks.length := by
  unfold collapseStep
  cases hn : nthStat s.tasks i with
  | none => rfl
  | some v =>
    cases v with
    | ready =>
      cases hc : s.cached with
      | true => simp [hc, setStat_length]
      | false => simp [hc, setStat_length]
    | awaiting => simp [setStat_length]
    | finished => rfl

/-- Claim C7 as amended: the wrapper performs no request collapsing — each
caller that checks the cache before the first result is stored starts its
own fetch — but a run of `n` concurrent callers of the same uncached key
performs at most `n` fetches (at most one per caller), and two callers
scheduled sequentially (the second checks only after the first has stored)
perform exactly one fetch. -/
theorem collapse_bound_and_sequential :
    (∀ (n : ℕ) (sched : List ℕ), (collapseRun n sched).fetches ≤ n)
      ∧ (collapseRun 2 [0, 0, 1, 1]).fetches = 1 := by
  constructor
  · intro n sched
    have key : ∀ (l : List ℕ) (s : CollapseState),
        s.fetches ≤ startedCount s →
        ((l.foldl collapseStep s).fetches ≤ startedCount (l.foldl collapseStep s)
          ∧ (l.foldl collapseStep s).tasks.length = s.tasks.length) := by
      intro l
      induction l with
      | nil => intro s hs; exact ⟨hs, rfl⟩
      | cons i rest ih =>
        intro s hs
        have h1 := collapseStep_bound s i hs
        have h2 := collapseStep_length s i
        obtain ⟨ha, hb⟩ := ih (collapseStep s i) h1
        refine ⟨by rw [List.foldl_cons]; exact ha, ?_⟩
        rw [List.foldl_cons, hb, h2]
    have h0 : (⟨false, 0, List.replicate n FetchStat.ready⟩ :
        CollapseState).fetches ≤
          startedCount ⟨false, 0, List.replicate n FetchStat.ready⟩ := by
      simp [startedCount]
    obtain ⟨ha, hb⟩ := key sched ⟨false, 0, List.replicate n FetchStat.ready⟩ h0
    have hrun : collapseRun n sched
        = sched.foldl collapseStep ⟨false, 0, List.replicate n FetchStat.ready⟩ := rfl
    calc (collapseRun n sched).fetches
        ≤ startedCount (collapseRun n sched) := by rw [hrun]; exact ha
      _ ≤ (collapseRun n sched).tasks.length := List.countP_le_length _
      _ = n := by rw [hrun, hb]; simp
  · decide

/-- Claim C9 counterexample: a payload holding one well-formed record and
one malformed record (its `UUID` field missing) does not abort the core
resolver — the blanket `except` swallows the `KeyError` and the partially
merged prefix `[{0,5,[a]}]` is returned with no error, and the cache wrapper
then stores it (here looked up 100 seconds later, within its 300-second
TTL).  The claim required the resolution to fail loudly with nothing
cached. -/
theorem core_malformed_returns_partial_and_caches :
    Core.processSegments
        [⟨some [0, 5], some "a", some 0⟩, ⟨some [10, 20], none, some 1⟩]
      = ([⟨0, 5, ["a"]⟩], false)
    ∧ cacheLookup 100
        (cachedCall 0 (some 300) ([] : Cache (List MSeg)) "vid"
          (Core.processSegments
            [⟨some [0, 5], some "a", some 0⟩,
             ⟨some [10, 20], none, some 1⟩])).2 "vid"
      = some [⟨0, 5, ["a"]⟩] := by
  have h1 : Core.processSegments
      [⟨some [0, 5], some "a", some 0⟩, ⟨some [10, 20], none, some 1⟩]
      = ([⟨0, 5, ["a"]⟩], false) := by
    norm_num [Core.processSegments, Core.toWSeg, Core.extendEnds,
      Core.extendStarts, Core.combineWalk, List.insertionSort,
      List.orderedInsert, List.range, List.range.loop, List.foldl, List.getD,
      List.set, show ((0 : Int) == 1) = false from by decide]
  refine ⟨h1, ?_⟩
  rw [h1]
  norm_num [cachedCall, cacheLookup, ttlSetItem, List.find?]

/-- Claim C9 as amended: only the legacy `api_helpers` resolver fails loudly
on malformed records — its validation loop raises `TypeError` when any
record lacks the `segment` field, the exception propagates through the cache
wrapper before the store, and the cache is left exactly as it was; the core
resolver used by the device listener instead swallows the error and returns
(and caches) the partial result, as the counterexample shows. -/
theorem malformed_aborts_legacy_resolver (gap now ttl : ℚ)
    (c : Cache (List MSeg)) (k : String) (recs : List RawRecord)
    (hmal : ∃ r ∈ recs, r.segment = none)
    (hmiss : cacheLookup now c k = none) :
    ApiHelpers.processSegmentsE gap recs = Except.error PyErr.typeError
      ∧ cachedCallE now (some ttl) c k (ApiHelpers.processSegmentsE gap recs)
        = (Except.error PyErr.typeError, c) := by
  obtain ⟨r, hr, hseg⟩ := hmal
  have hany : recs.any (fun r => r.segment.isNone) = true :=
    List.any_eq_true.mpr ⟨r, hr, by simp [hseg]⟩
  have h1 : ApiHelpers.processSegmentsE gap recs
      = Except.error PyErr.typeError := by
    simp [ApiHelpers.processSegmentsE, hany]
  refine ⟨h1, ?_⟩
  simp only [cachedCallE, hmiss, h1]

/-- Witness for C9's amended statement: a single record with no `segment`
field against an empty cache. -/
theorem malformed_aborts_legacy_resolver_witness :
    (∃ r ∈ ([⟨none, some "a", some 1⟩] : List RawRecord), r.segment = none)
      ∧ cacheLookup 0 ([] : Cache (List MSeg)) "vid" = none
      ∧ (ApiHelpers.processSegmentsE 1 [⟨none, some "a", some 1⟩]
            = Except.error PyErr.typeError
        ∧ cachedCallE 0 (some 300) ([] : Cache (List MSeg)) "vid"
            (ApiHelpers.processSegmentsE 1 [⟨none, some "a", some 1⟩])
          = (Except.error PyErr.typeError, [])) := by
  have hmal : ∃ r ∈ ([⟨none, some "a", some 1⟩] : List RawRecord),
      r.segment = none := ⟨⟨none, some "a", some 1⟩, by simp, rfl⟩
  have hmiss : cacheLookup 0 ([] : Cache (List MSeg)) "vid" = none := by
    simp [cacheLookup, List.find?]
  exact ⟨hmal, hmiss,
    malformed_aborts_legacy_resolver 1 0 300 [] "vid" _ hmal hmiss⟩

end ISponsorBlockTV
